import Mathlib

/-!
Verification of the draft orchestration subsystem of the sports-league
backend (src/services/draftService.js).

The JavaScript service keeps one draft record per league.  Each exported
operation loads the record from the database inside a transaction,
validates, mutates a fresh in-memory copy, writes it back and commits;
every thrown error triggers a ROLLBACK before it propagates, so an
erroring call leaves the stored record exactly as it was.  We therefore
embed each operation as a pure function from the loaded draft state (plus
the external player catalog, passed explicitly) to `Except DraftError`
of the updated state, and model the commit/rollback discipline by
`commitPick`, which keeps the prior state on any error.

JavaScript field accesses on `undefined` (for example indexing the draft
order out of bounds and then reading `.team_id`) throw a TypeError, which
the service also turns into a rolled-back failure; these paths are
represented by the `typeError` constructor.
-/

/-- A row of the teams table: identifier, display name and owning user.
A team with no owning user is computer controlled. -/
structure Team where
  id : Nat
  name : String
  user_id : Option Nat
deriving Repr, DecidableEq

/-- One entry of the precomputed draft order, as pushed by
`generateDraftOrder`: 1-based overall pick number, 1-based round and the
team that owns the slot. -/
structure DraftSlot where
  pick : Nat
  round : Nat
  team_id : Nat
  team_name : String
deriving Repr, DecidableEq

/-- A row of the players table, restricted to the fields the draft logic
reads. -/
structure Player where
  id : Nat
  name : String
  position : String
  overall_rating : Nat
  potential : Nat
deriving Repr, DecidableEq

/-- The record appended to `team.picks` when a pick is applied: pick
number, round and a point-in-time snapshot of the player's display
fields. -/
structure PickRecord where
  pick_number : Nat
  round : Nat
  player_id : Nat
  player_name : String
  position : String
  overall_rating : Nat
deriving Repr, DecidableEq

/-- A team as stored inside the draft state blob: the team row data plus
the applied picks and the computer-control flag (`is_ai` in the source,
set when the team has no owning user). -/
structure DraftTeam where
  id : Nat
  name : String
  user_id : Option Nat
  picks : List PickRecord
  is_ai : Bool
deriving Repr, DecidableEq

/-- The draft state blob persisted in the drafts table, restricted to the
fields the draft logic reads and writes (timestamps and the raw settings
object are omitted: no claim mentions them).  `status` is one of the
source's string literals "not_started", "in_progress", "completed". -/
structure DraftState where
  league_id : Nat
  status : String
  current_pick : Nat
  current_round : Nat
  total_rounds : Nat
  draft_type : String
  teams : List DraftTeam
  available_players : List Nat
  draft_order : List DraftSlot
deriving Repr, DecidableEq

/-- The distinct failure kinds thrown by the draft service.  `typeError`
stands for a JavaScript TypeError raised by reading a field of
`undefined` (out-of-range order index, missing team, empty candidate
list); like every other throw it is rolled back before propagating. -/
inductive DraftError where
  | noTeams
  | draftNotFound
  | invalidState
  | outOfTurn
  | playerUnavailable
  | playerNotFound
  | typeError
deriving Repr, DecidableEq

/-- One round's worth of `order.push(...)` calls: each pushed slot gets
pick number `order.length + 1` at the moment it is appended. -/
def pushRound (round : Nat) (ts : List Team) (order : List DraftSlot) : List DraftSlot :=
  ts.foldl
    (fun o t => o ++ [{ pick := o.length + 1, round := round, team_id := t.id, team_name := t.name }])
    order

/-- The source's `for (round = 1; round <= rounds; ...)` loop, written
with the remaining iteration count as structural fuel.  In snake mode
even rounds push `[...teams].reverse()`, odd rounds push `teams`; linear
mode always pushes `teams`. -/
def genRoundsFrom (teams : List Team) (snake : Bool) : Nat → Nat → List DraftSlot → List DraftSlot
  | 0, _, order => order
  | m + 1, round, order =>
      genRoundsFrom teams snake m (round + 1)
        (pushRound round (if snake = true ∧ round % 2 = 0 then teams.reverse else teams) order)

/-- `generateDraftOrder(teams, rounds, draftType)` from the source:
builds the full pick order, starting at round 1 with an empty order
array. -/
def generateDraftOrder (teams : List Team) (rounds : Nat) (draftType : String) : List DraftSlot :=
  genRoundsFrom teams (draftType == "snake") rounds 1 []

/-- Closed form of one round's block of slots, starting at pick number
`base + 1`. -/
def roundBlock (base round : Nat) : List Team → List DraftSlot
  | [] => []
  | t :: ts =>
      { pick := base + 1, round := round, team_id := t.id, team_name := t.name } ::
        roundBlock (base + 1) round ts

/-- Closed form of the blocks generated for `m` consecutive rounds
beginning at `round`, with `base` slots already emitted. -/
def blocksFrom (teams : List Team) (snake : Bool) : Nat → Nat → Nat → List DraftSlot
  | _, _, 0 => []
  | round, base, m + 1 =>
      roundBlock base round (if snake = true ∧ round % 2 = 0 then teams.reverse else teams)
        ++ blocksFrom teams snake (round + 1) (base + teams.length) m

theorem roundBlock_length (round : Nat) (ts : List Team) :
    ∀ base, (roundBlock base round ts).length = ts.length := by
  induction ts with
  | nil => intro base; rfl
  | cons t ts ih => intro base; simp [roundBlock, ih]

theorem pushRound_eq (round : Nat) (ts : List Team) :
    ∀ order, pushRound round ts order = order ++ roundBlock order.length round ts := by
  induction ts with
  | nil => intro order; simp [pushRound, roundBlock]
  | cons t ts ih =>
      intro order
      have step :
          pushRound round (t :: ts) order =
            pushRound round ts
              (order ++ [{ pick := order.length + 1, round := round,
                           team_id := t.id, team_name := t.name }]) := by
        simp [pushRound]
      rw [step, ih]
      simp [roundBlock]

theorem genRoundsFrom_eq (teams : List Team) (snake : Bool) :
    ∀ m round order,
      genRoundsFrom teams snake m round order =
        order ++ blocksFrom teams snake round order.length m := by
  intro m
  induction m with
  | zero => intro round order; simp [genRoundsFrom, blocksFrom]
  | succ m ih =>
      intro round order
      rw [genRoundsFrom, ih, pushRound_eq]
      have hlen :
          (order ++ roundBlock order.length round
              (if snake = true ∧ round % 2 = 0 then teams.reverse else teams)).length =
            order.length + teams.length := by
        rw [List.length_append, roundBlock_length]
        split <;> simp
      rw [hlen, blocksFrom, List.append_assoc]

theorem generateDraftOrder_snake_eq (teams : List Team) (rounds : Nat) :
    generateDraftOrder teams rounds "snake" = blocksFrom teams true 1 0 rounds := by
  have h := genRoundsFrom_eq teams true rounds 1 []
  simpa [generateDraftOrder] using h

theorem blocksFrom_length (teams : List Team) (snake : Bool) :
    ∀ m round base, (blocksFrom teams snake round base m).length = m * teams.length := by
  intro m
  induction m with
  | zero => intro round base; simp [blocksFrom]
  | succ m ih =>
      intro round base
      rw [blocksFrom, List.length_append, roundBlock_length, ih]
      split <;> [skip; skip] <;> simp [Nat.succ_mul] <;> ring

theorem roundBlock_map_pick (round : Nat) (ts : List Team) :
    ∀ base, (roundBlock base round ts).map (fun s => s.pick) = List.range' (base + 1) ts.length := by
  induction ts with
  | nil => intro base; simp [roundBlock]
  | cons t ts ih =>
      intro base
      rw [roundBlock]
      simp only [List.map_cons, List.length_cons, ih (base + 1)]
      simp [List.range', Nat.add_comm, Nat.add_assoc, Nat.add_left_comm]

theorem blocksFrom_map_pick (teams : List Team) (snake : Bool) :
    ∀ m round base,
      (blocksFrom teams snake round base m).map (fun s => s.pick) =
        List.range' (base + 1) (m * teams.length) := by
  intro m
  induction m with
  | zero => intro round base; simp [blocksFrom]
  | succ m ih =>
      intro round base
      rw [blocksFrom, List.map_append, roundBlock_map_pick, ih]
      have hts : (if snake = true ∧ round % 2 = 0 then teams.reverse else teams).length =
          teams.length := by split <;> simp
      rw [hts]
      have := List.range'_append (base + 1) teams.length (m * teams.length) 1
      simp only [Nat.one_mul, Nat.mul_one] at this
      calc List.range' (base + 1) teams.length ++ List.range' (base + teams.length + 1) (m * teams.length)
          = List.range' (base + 1) teams.length ++ List.range' (base + 1 + teams.length) (m * teams.length) := by
            ring_nf
        _ = List.range' (base + 1) (m * teams.length + teams.length) := this
        _ = List.range' (base + 1) ((m + 1) * teams.length) := by ring_nf

theorem roundBlock_map_team_id (round : Nat) (ts : List Team) :
    ∀ base, (roundBlock base round ts).map (fun s => s.team_id) = ts.map (fun t => t.id) := by
  induction ts with
  | nil => intro base; rfl
  | cons t ts ih => intro base; simp [roundBlock, ih]

theorem roundBlock_round_mem (round : Nat) (ts : List Team) :
    ∀ base s, s ∈ roundBlock base round ts → s.round = round := by
  induction ts with
  | nil => intro base s hs; simp [roundBlock] at hs
  | cons t ts ih =>
      intro base s hs
      rw [roundBlock] at hs
      rcases List.mem_cons.mp hs with h | h
      · rw [h]
      · exact ih (base + 1) s h

theorem blocksFrom_segment (teams : List Team) (snake : Bool) :
    ∀ m k round base, k < m →
      ((blocksFrom teams snake round base m).drop (k * teams.length)).take teams.length =
        roundBlock (base + k * teams.length) (round + k)
          (if snake = true ∧ (round + k) % 2 = 0 then teams.reverse else teams) := by
  intro m
  induction m with
  | zero => intro k round base hk; omega
  | succ m ih =>
      intro k round base hk
      have hblen : (roundBlock base round
          (if snake = true ∧ round % 2 = 0 then teams.reverse else teams)).length =
          teams.length := by
        rw [roundBlock_length]; split <;> simp
      cases k with
      | zero =>
          rw [blocksFrom]
          simp only [Nat.zero_mul, List.drop_zero, Nat.add_zero]
          rw [List.take_append_of_le_length (le_of_eq hblen.symm),
            List.take_of_length_le (le_of_eq hblen)]
      | succ k =>
          rw [blocksFrom]
          have hsplit : (k + 1) * teams.length =
              (roundBlock base round
                (if snake = true ∧ round % 2 = 0 then teams.reverse else teams)).length +
                k * teams.length := by
            rw [hblen]; ring
          rw [hsplit, List.drop_append, ih k (round + 1) (base + teams.length) (by omega)]
          have h2 : round + 1 + k = round + (k + 1) := by ring
          rw [h2, hblen]
          ring_nf

/-- Claim C1: for every non-empty team list and every rounds count of at
least 1, `generateDraftOrder` in snake mode emits `rounds * n` slots whose
pick numbers are exactly 1, 2, ... in emission order, where the block of
every odd round (1-indexed) lists the teams in their given order and the
block of every even round lists them in exactly reversed order; concretely
for teams A, B, C and three rounds the team sequence is
A,B,C, C,B,A, A,B,C. -/
theorem generateDraftOrder_snake_spec (teams : List Team) (rounds : Nat)
    (hne : teams ≠ []) (hr : 1 ≤ rounds) :
    (generateDraftOrder teams rounds "snake").length = rounds * teams.length ∧
    (generateDraftOrder teams rounds "snake").map (fun s => s.pick) =
      List.range' 1 (rounds * teams.length) ∧
    (∀ k, k < rounds →
      (((generateDraftOrder teams rounds "snake").drop (k * teams.length)).take
          teams.length).map (fun s => s.team_id) =
        (if (k + 1) % 2 = 1 then teams.map (fun t => t.id)
         else (teams.map (fun t => t.id)).reverse)) ∧
    (∀ k, k < rounds → ∀ s ∈ ((generateDraftOrder teams rounds "snake").drop
        (k * teams.length)).take teams.length, s.round = k + 1) ∧
    (generateDraftOrder [⟨1, "A", none⟩, ⟨2, "B", none⟩, ⟨3, "C", none⟩] 3 "snake").map
        (fun s => s.team_id) = [1, 2, 3, 3, 2, 1, 1, 2, 3] := by
  rw [generateDraftOrder_snake_eq]
  refine ⟨blocksFrom_length teams true rounds 1 0, ?_, ?_, ?_, ?_⟩
  · simpa using blocksFrom_map_pick teams true rounds 1 0
  · intro k hk
    rw [blocksFrom_segment teams true rounds k 1 0 hk]
    rcases Nat.mod_two_eq_zero_or_one (k + 1) with hpar | hpar
    · have hcond : (true = true ∧ (1 + k) % 2 = 0) := ⟨rfl, by omega⟩
      rw [if_pos hcond, roundBlock_map_team_id, if_neg (by omega : ¬ (k + 1) % 2 = 1)]
      simp
    · have hcond : ¬ (true = true ∧ (1 + k) % 2 = 0) := by
        rintro ⟨-, h⟩; omega
      rw [if_neg hcond, roundBlock_map_team_id, if_pos hpar]
  · intro k hk s hs
    rw [blocksFrom_segment teams true rounds k 1 0 hk] at hs
    have := roundBlock_round_mem (1 + k) _ (0 + k * teams.length) s hs
    omega
  · decide

/-- Witness for C1 at teams A, B, C with three rounds. -/
theorem generateDraftOrder_snake_spec_witness :
    ([⟨1, "A", none⟩, ⟨2, "B", none⟩, ⟨3, "C", none⟩] : List Team) ≠ [] ∧
    (generateDraftOrder [⟨1, "A", none⟩, ⟨2, "B", none⟩, ⟨3, "C", none⟩] 3 "snake").length =
      3 * 3 := by
  have h := generateDraftOrder_snake_spec [⟨1, "A", none⟩, ⟨2, "B", none⟩, ⟨3, "C", none⟩] 3
    (by decide) (by decide)
  exact ⟨by decide, by simpa using h.1⟩

/-- JavaScript array indexing `a[i]`: `undefined` (here `none`) when the
index is negative or past the end. -/
def arrayGet {α : Type} (l : List α) (i : Int) : Option α :=
  if h : 0 ≤ i ∧ i.toNat < l.length then some (l.get ⟨i.toNat, h.2⟩) else none

/-- `draftState.draft_order[draftState.current_pick - 1]` from the source,
with JavaScript semantics when the index is out of range. -/
def slotAt (s : DraftState) : Option DraftSlot :=
  arrayGet s.draft_order ((s.current_pick : Int) - 1)

/-- The `SELECT * FROM players WHERE id = $1` lookup, over an explicit
catalog of player rows. -/
def findPlayer (catalog : List Player) (playerId : Nat) : Option Player :=
  catalog.find? (fun p => p.id == playerId)

/-- `draftState.teams.find(t => t.id === teamId).picks.push(record)`:
appends the record to the picks of the first team with the given
identifier and leaves every other team untouched. -/
def pushPick (teamId : Nat) (pr : PickRecord) : List DraftTeam → List DraftTeam
  | [] => []
  | t :: ts =>
      if t.id = teamId then { t with picks := t.picks ++ [pr] } :: ts
      else t :: pushPick teamId pr ts

/-- The pick record captured by `makeDraftPick` for the chosen player. -/
def pickRecordOf (s : DraftState) (playerId : Nat) (player : Player) : PickRecord :=
  { pick_number := s.current_pick, round := s.current_round, player_id := playerId,
    player_name := player.name, position := player.position,
    overall_rating := player.overall_rating }

/-- The successful-path state update of `makeDraftPick`: record the pick,
drop the player from the pool, advance the pick pointer, bump the round
when the pointer passed the current round's last slot, and complete the
draft when the pointer passed the end of the order. -/
def applyPick (s : DraftState) (teamId playerId : Nat) (player : Player) : DraftState :=
  { s with
      teams := pushPick teamId (pickRecordOf s playerId player) s.teams,
      available_players := s.available_players.filter (fun id => id != playerId),
      current_pick := s.current_pick + 1,
      current_round :=
        if s.teams.length * s.current_round < s.current_pick + 1 then s.current_round + 1
        else s.current_round,
      status :=
        if s.draft_order.length < s.current_pick + 1 then "completed" else s.status }

/-- `makeDraftPick` from the source, as a pure function of the loaded
draft state: the four validations in source order, then the atomic state
update.  The roster INSERT and salary UPDATE touch external tables only
and are outside the draft state. -/
def makeDraftPick (catalog : List Player) (s : DraftState) (teamId playerId : Nat) :
    Except DraftError (DraftState × PickRecord) :=
  if s.status ≠ "in_progress" then .error .invalidState
  else
    match slotAt s with
    | none => .error .typeError
    | some slot =>
      if slot.team_id ≠ teamId then .error .outOfTurn
      else if playerId ∉ s.available_players then .error .playerUnavailable
      else
        match findPlayer catalog playerId with
        | none => .error .playerNotFound
        | some player =>
          match s.teams.find? (fun t => t.id == teamId) with
          | none => .error .typeError
          | some _ => .ok (applyPick s teamId playerId player, pickRecordOf s playerId player)

/-- The transaction wrapper around one `makeDraftPick` call: the updated
state is committed on success, while ROLLBACK keeps the stored state
unchanged on any thrown error. -/
def commitPick (catalog : List Player) (s : DraftState) (teamId playerId : Nat) : DraftState :=
  match makeDraftPick catalog s teamId playerId with
  | .ok (s2, _) => s2
  | .error _ => s

/-- `startDraft` from the source: fails only when no draft record exists
for the league, and otherwise sets the status to "in_progress" without
inspecting the current status. -/
def startDraft (store : Option DraftState) : Except DraftError DraftState :=
  match store with
  | none => .error .draftNotFound
  | some s => .ok { s with status := "in_progress" }

/-- SQL `ORDER BY overall_rating DESC`: a row sorts before another when
its rating is at least the other's. -/
def ratedAbove (a b : Player) : Prop := b.overall_rating ≤ a.overall_rating

instance : DecidableRel ratedAbove :=
  fun a b => inferInstanceAs (Decidable (b.overall_rating ≤ a.overall_rating))

instance : IsTotal Player ratedAbove :=
  ⟨fun a b => Nat.le_total b.overall_rating a.overall_rating⟩

instance : IsTrans Player ratedAbove :=
  ⟨fun _ _ _ h1 h2 => Nat.le_trans h2 h1⟩

/-- The initialization pool query: players not already rostered in the
league, ordered by rating descending, limited to `totalPicks` rows, then
projected to their identifiers.  The SQL leaves the relative order of
equal ratings open; the embedding uses a stable sort of the catalog's row
order, one of the orders the database may return. -/
def draftPool (catalog : List Player) (rostered : List Nat) (totalPicks : Nat) : List Nat :=
  ((List.insertionSort ratedAbove
      (catalog.filter (fun p => !(rostered.contains p.id)))).take totalPicks).map
    (fun p => p.id)

/-- The draft state built by `initializeDraft`: status "not_started",
pick pointer 1, round 1, empty pick lists, the computer-control flag set
for teams without an owning user, the rating-ordered player pool and the
generated order. -/
def freshDraft (leagueId : Nat) (teams : List Team) (catalog : List Player)
    (rostered : List Nat) (rounds : Nat) (draftType : String) (totalPicks : Nat) : DraftState :=
  { league_id := leagueId, status := "not_started", current_pick := 1, current_round := 1,
    total_rounds := rounds, draft_type := draftType,
    teams := teams.map (fun t =>
      { id := t.id, name := t.name, user_id := t.user_id, picks := [],
        is_ai := t.user_id.isNone }),
    available_players := draftPool catalog rostered totalPicks,
    draft_order := generateDraftOrder teams rounds draftType }

/-- `initializeDraft` from the source, over the league's stored draft
record (`existing`): it throws only when the league has no teams, and
otherwise stores a fresh draft state through
`INSERT ... ON CONFLICT (league_id) DO UPDATE`, an upsert that replaces
whatever record existed before. -/
def initializeDraft (existing : Option DraftState) (leagueId : Nat) (teams : List Team)
    (catalog : List Player) (rostered : List Nat) (rounds : Nat) (draftType : String)
    (totalPicks : Nat) : Except DraftError (Option DraftState) :=
  if teams = [] then .error .noTeams
  else .ok (some (freshDraft leagueId teams catalog rostered rounds draftType totalPicks))

/-- Outcome of the external generative ranking call in
`selectBestPlayer`: the request may throw, the response may fail to parse
(both land in the same catch block), or it parses to a chosen player
identifier. -/
inductive AIResult where
  | err
  | unparseable
  | parsed (playerId : Nat)
deriving Repr, DecidableEq

/-- `selectBestPlayer` from the source: on a thrown call or an
unparseable response the catch block returns `availablePlayers[0]`; on a
parsed response the chosen identifier is looked up among the candidates,
falling back to `availablePlayers[0]` when it names no candidate.
`none` models the `undefined` read on an empty candidate list. -/
def selectBestPlayer (availablePlayers : List Player) (ai : AIResult) : Option Player :=
  match ai with
  | .err => availablePlayers.head?
  | .unparseable => availablePlayers.head?
  | .parsed pid =>
      match availablePlayers.find? (fun p => p.id == pid) with
      | none => availablePlayers.head?
      | some p => some p

/-- The candidate query of `makeAIDraftPick`:
`WHERE id = ANY(available) ORDER BY overall_rating DESC LIMIT 20`. -/
def topAvailable (catalog : List Player) (available : List Nat) : List Player :=
  (List.insertionSort ratedAbove
      (catalog.filter (fun p => available.contains p.id))).take 20

/-- `makeAIDraftPick` from the source: query the 20 best available
players, let the ranking call (outcome `ai`) choose among them, then
route the chosen player through the full `makeDraftPick` path.  An empty
candidate list makes the source read `.id` of `undefined`: a
TypeError. -/
def makeAIDraftPick (catalog : List Player) (ai : AIResult) (s : DraftState) (teamId : Nat) :
    Except DraftError (DraftState × PickRecord) :=
  match selectBestPlayer (topAvailable catalog s.available_players) ai with
  | none => .error .typeError
  | some player => makeDraftPick catalog s teamId player.id

/-- Total number of pick records across the teams of a draft state. -/
def sumPicks (ts : List DraftTeam) : Nat := (ts.map (fun t => t.picks.length)).sum

theorem makeDraftPick_ok_elim {catalog : List Player} {s : DraftState} {teamId playerId : Nat}
    {s2 : DraftState} {pr : PickRecord}
    (h : makeDraftPick catalog s teamId playerId = .ok (s2, pr)) :
    s.status = "in_progress" ∧
    (∃ slot, slotAt s = some slot ∧ slot.team_id = teamId) ∧
    playerId ∈ s.available_players ∧
    (∃ u, s.teams.find? (fun t => t.id == teamId) = some u) ∧
    (∃ player, findPlayer catalog playerId = some player ∧
        s2 = applyPick s teamId playerId player ∧
        pr = pickRecordOf s playerId player) := by
  rw [makeDraftPick] at h
  split at h
  · exact absurd h (by simp)
  · next hstat =>
      split at h
      · exact absurd h (by simp)
      · next slot hslot =>
          split at h
          · exact absurd h (by simp)
          · next hteam =>
              split at h
              · exact absurd h (by simp)
              · next hmem =>
                  split at h
                  · exact absurd h (by simp)
                  · next player hplayer =>
                      split at h
                      · exact absurd h (by simp)
                      · next u hfind =>
                          simp only [Except.ok.injEq, Prod.mk.injEq] at h
                          refine ⟨not_not.mp hstat, ⟨slot, hslot, not_not.mp hteam⟩,
                            not_not.mp hmem, ⟨u, hfind⟩,
                            ⟨player, hplayer, h.1.symm, h.2.symm⟩⟩

/-- Concrete fixtures: a two-team league (one human, one computer
controlled), two catalog players and the one-round snake order. -/
def teamA : DraftTeam :=
  { id := 1, name := "Alpha", user_id := some 7, picks := [], is_ai := false }

def teamB : DraftTeam :=
  { id := 2, name := "Beta", user_id := none, picks := [], is_ai := true }

def playerX : Player :=
  { id := 10, name := "X", position := "PG", overall_rating := 90, potential := 92 }

def playerY : Player :=
  { id := 20, name := "Y", position := "SG", overall_rating := 85, potential := 88 }

def demoCatalog : List Player := [playerX, playerY]

def demoDraft : DraftState :=
  { league_id := 1, status := "in_progress", current_pick := 1, current_round := 1,
    total_rounds := 1, draft_type := "snake",
    teams := [teamA, teamB], available_players := [10, 20],
    draft_order := [⟨1, 1, 1, "Alpha"⟩, ⟨2, 1, 2, "Beta"⟩] }

/-- Claim C2: `makeDraftPick` performs exactly the four validations in
source order — a status other than in-progress fails with InvalidState;
otherwise a current order slot naming another team fails with OutOfTurn;
otherwise a player missing from the available pool fails with
PlayerUnavailable; otherwise an identifier that does not resolve in the
player catalog fails with NotFound — and a pick succeeds only when all
four validations pass. -/
theorem makeDraftPick_validation_order (catalog : List Player) (s : DraftState)
    (teamId playerId : Nat) :
    (s.status ≠ "in_progress" →
        makeDraftPick catalog s teamId playerId = .error .invalidState) ∧
    (∀ slot, s.status = "in_progress" → slotAt s = some slot → slot.team_id ≠ teamId →
        makeDraftPick catalog s teamId playerId = .error .outOfTurn) ∧
    (∀ slot, s.status = "in_progress" → slotAt s = some slot → slot.team_id = teamId →
        playerId ∉ s.available_players →
        makeDraftPick catalog s teamId playerId = .error .playerUnavailable) ∧
    (∀ slot, s.status = "in_progress" → slotAt s = some slot → slot.team_id = teamId →
        playerId ∈ s.available_players → findPlayer catalog playerId = none →
        makeDraftPick catalog s teamId playerId = .error .playerNotFound) ∧
    (∀ r, makeDraftPick catalog s teamId playerId = .ok r →
        s.status = "in_progress" ∧
        (∃ slot, slotAt s = some slot ∧ slot.team_id = teamId) ∧
        playerId ∈ s.available_players ∧ (findPlayer catalog playerId).isSome = true) := by
  refine ⟨?_, ?_, ?_, ?_, ?_⟩
  · intro hstat; simp [makeDraftPick, hstat]
  · intro slot hstat hslot hteam
    simp [makeDraftPick, hstat, hslot, hteam]
  · intro slot hstat hslot hteam hmem
    simp [makeDraftPick, hstat, hslot, hteam, hmem]
  · intro slot hstat hslot hteam hmem hfind
    simp [makeDraftPick, hstat, hslot, hteam, hmem, hfind]
  · rintro ⟨s2, pr⟩ h
    obtain ⟨h1, h2, h3, -, player, hp, -, -⟩ := makeDraftPick_ok_elim h
    exact ⟨h1, h2, h3, by simp [hp]⟩

/-- Witness for C2: with team Beta requesting while the first slot
belongs to team Alpha, the pick fails with OutOfTurn. -/
theorem makeDraftPick_validation_order_witness :
    makeDraftPick demoCatalog demoDraft 2 10 = .error .outOfTurn := by
  have h := (makeDraftPick_validation_order demoCatalog demoDraft 2 10).2.1
  exact h ⟨1, 1, 1, "Alpha"⟩ (by decide) (by decide) (by decide)

/-- Claim C3: a failing `makeDraftPick` call commits nothing — after the
rolled-back transaction the stored draft state is exactly the prior
state: the available pool, the recorded picks, the pick pointer, the
round and the status all keep their prior values. -/
theorem makeDraftPick_error_no_side_effects (catalog : List Player) (s : DraftState)
    (teamId playerId : Nat) (e : DraftError)
    (h : makeDraftPick catalog s teamId playerId = .error e) :
    commitPick catalog s teamId playerId = s ∧
    (commitPick catalog s teamId playerId).available_players = s.available_players ∧
    (commitPick catalog s teamId playerId).teams = s.teams ∧
    (commitPick catalog s teamId playerId).current_pick = s.current_pick ∧
    (commitPick catalog s teamId playerId).current_round = s.current_round ∧
    (commitPick catalog s teamId playerId).status = s.status := by
  have hc : commitPick catalog s teamId playerId = s := by
    simp [commitPick, h]
  exact ⟨hc, by rw [hc], by rw [hc], by rw [hc], by rw [hc], by rw [hc]⟩

/-- Witness for C3: requesting the unavailable player 99 fails and leaves
the demo draft unchanged. -/
theorem makeDraftPick_error_no_side_effects_witness :
    commitPick demoCatalog demoDraft 1 99 = demoDraft :=
  (makeDraftPick_error_no_side_effects demoCatalog demoDraft 1 99 .playerUnavailable
    (by rfl)).1

theorem filter_bne_length {l : List Nat} {a : Nat} (hnd : l.Nodup) (ha : a ∈ l) :
    (l.filter (fun x => x != a)).length + 1 = l.length := by
  induction l with
  | nil => cases ha
  | cons b t ih =>
      rw [List.nodup_cons] at hnd
      by_cases hab : b = a
      · subst hab
        have hnotmem : ∀ x ∈ t, (x != b) = true := fun x hx => by
          have hne : x ≠ b := fun hxb => hnd.1 (hxb ▸ hx)
          simpa [bne_iff_ne] using hne
        rw [List.filter_cons_of_neg (by simp), List.filter_eq_self.mpr hnotmem]
        simp
      · have hmem : a ∈ t := by
          rcases List.mem_cons.mp ha with h | h
          · exact absurd h.symm hab
          · exact h
        rw [List.filter_cons_of_pos (by simpa [bne_iff_ne] using hab)]
        simp only [List.length_cons]
        rw [← ih hnd.2 hmem]

theorem pushPick_decomp {teamId : Nat} {pr : PickRecord} :
    ∀ {ts : List DraftTeam} {u : DraftTeam},
      ts.find? (fun t => t.id == teamId) = some u →
      ∃ pre post, ts = pre ++ u :: post ∧
        pushPick teamId pr ts = pre ++ ({ u with picks := u.picks ++ [pr] }) :: post ∧
        u.id = teamId ∧ ∀ v ∈ pre, v.id ≠ teamId := by
  intro ts
  induction ts with
  | nil => intro u h; simp [List.find?] at h
  | cons t ts ih =>
      intro u h
      by_cases ht : t.id = teamId
      · have heq : t = u := by
          rw [List.find?_cons_of_pos _ (by simpa using ht)] at h
          exact Option.some.inj h
        subst heq
        exact ⟨[], ts, rfl, by simp [pushPick, ht], ht, by simp⟩
      · rw [List.find?_cons_of_neg _ (by simpa using ht)] at h
        obtain ⟨pre, post, h1, h2, h3, h4⟩ := ih h
        refine ⟨t :: pre, post, by simp [h1], by simp [pushPick, ht, h2], h3, ?_⟩
        intro v hv
        rcases List.mem_cons.mp hv with h | h
        · exact h ▸ ht
        · exact h4 v h

theorem makeDraftPick_ok_counts {catalog : List Player} {s : DraftState}
    {teamId playerId : Nat} {s2 : DraftState} {pr : PickRecord}
    (h : makeDraftPick catalog s teamId playerId = .ok (s2, pr))
    (hnd : s.available_players.Nodup) :
    s2.available_players.length + 1 = s.available_players.length ∧
    sumPicks s2.teams = sumPicks s.teams + 1 ∧
    s2.available_players.Nodup ∧
    (∃ pre u post, s.teams = pre ++ u :: post ∧
        s2.teams = pre ++ ({ u with picks := u.picks ++ [pr] }) :: post ∧
        ∀ v ∈ pre, v.id ≠ teamId) := by
  obtain ⟨-, -, hmem, ⟨u, hfind⟩, player, -, hs2, hpr⟩ := makeDraftPick_ok_elim h
  subst hpr
  obtain ⟨pre, post, hts, hpush, -, hpre⟩ :=
    @pushPick_decomp teamId (pickRecordOf s playerId player) s.teams u hfind
  subst hs2
  refine ⟨?_, ?_, ?_, pre, u, post, hts, by simp [applyPick, hpush], hpre⟩
  · simpa [applyPick] using filter_bne_length hnd hmem
  · have : sumPicks (pushPick teamId (pickRecordOf s playerId player) s.teams) =
        sumPicks s.teams + 1 := by
      rw [hpush, hts]
      simp [sumPicks]
      omega
    simpa [applyPick] using this
  · exact List.Nodup.filter _ hnd

/-- One request per element: fold the transaction wrapper over a list of
submitted (team, player) pick requests. -/
def runPicks (catalog : List Player) : DraftState → List (Nat × Nat) → DraftState
  | s, [] => s
  | s, (teamId, playerId) :: reqs => runPicks catalog (commitPick catalog s teamId playerId) reqs

theorem commitPick_conserves (catalog : List Player) (s : DraftState) (teamId playerId : Nat)
    (hnd : s.available_players.Nodup) :
    (commitPick catalog s teamId playerId).available_players.length +
        sumPicks (commitPick catalog s teamId playerId).teams =
      s.available_players.length + sumPicks s.teams ∧
    (commitPick catalog s teamId playerId).available_players.Nodup := by
  rcases hres : makeDraftPick catalog s teamId playerId with e | ⟨s2, pr⟩
  · constructor <;> simp [commitPick, hres, hnd]
  · have hc : commitPick catalog s teamId playerId = s2 := by simp [commitPick, hres]
    obtain ⟨h1, h2, h3, -⟩ := makeDraftPick_ok_counts hres hnd
    rw [hc]
    exact ⟨by omega, h3⟩

/-- Claim C4: over any sequence of submitted picks, the number of
identifiers left in the available pool plus the picks recorded across all
teams is conserved (so it always equals the original pool size when no
picks were recorded yet), and each successful pick removes exactly one
identifier from the pool and appends exactly one record to exactly one
team's picks. -/
theorem draft_pool_conservation (catalog : List Player) (s : DraftState)
    (reqs : List (Nat × Nat)) (hnd : s.available_players.Nodup) :
    ((runPicks catalog s reqs).available_players.length +
        sumPicks (runPicks catalog s reqs).teams =
      s.available_players.length + sumPicks s.teams) ∧
    (∀ teamId playerId s2 pr,
        makeDraftPick catalog s teamId playerId = .ok (s2, pr) →
        s2.available_players.length + 1 = s.available_players.length ∧
        sumPicks s2.teams = sumPicks s.teams + 1 ∧
        (∃ pre u post, s.teams = pre ++ u :: post ∧
            s2.teams = pre ++ ({ u with picks := u.picks ++ [pr] }) :: post ∧
            ∀ v ∈ pre, v.id ≠ teamId)) := by
  constructor
  · induction reqs generalizing s with
    | nil => rfl
    | cons req reqs ih =>
        obtain ⟨teamId, playerId⟩ := req
        obtain ⟨hstep, hnd2⟩ := commitPick_conserves catalog s teamId playerId hnd
        calc (runPicks catalog (commitPick catalog s teamId playerId) reqs).available_players.length +
              sumPicks (runPicks catalog (commitPick catalog s teamId playerId) reqs).teams
            = (commitPick catalog s teamId playerId).available_players.length +
              sumPicks (commitPick catalog s teamId playerId).teams := ih _ hnd2
          _ = s.available_players.length + sumPicks s.teams := hstep
  · intro teamId playerId s2 pr h
    obtain ⟨h1, h2, -, h4⟩ := makeDraftPick_ok_counts h hnd
    exact ⟨h1, h2, h4⟩

/-- Witness for C4: running both demo picks conserves pool size plus
recorded picks. -/
theorem draft_pool_conservation_witness :
    (runPicks demoCatalog demoDraft [(1, 10), (2, 20)]).available_players.length +
        sumPicks (runPicks demoCatalog demoDraft [(1, 10), (2, 20)]).teams =
      demoDraft.available_players.length + sumPicks demoDraft.teams :=
  (draft_pool_conservation demoCatalog demoDraft [(1, 10), (2, 20)] (by decide)).1

/-- Claim C5: a successful pick whose advanced pointer exceeds the order
length sets the status to completed within the same atomic update (and
otherwise leaves the status as it was), every pick against a completed
draft fails with InvalidState, and concretely in the two-team one-round
demo draft the second pick completes the draft and a third attempt fails
with InvalidState. -/
theorem draft_completion (catalog : List Player) (s : DraftState) (teamId playerId : Nat) :
    (∀ s2 pr, makeDraftPick catalog s teamId playerId = .ok (s2, pr) →
        (s.draft_order.length < s2.current_pick → s2.status = "completed") ∧
        (s2.current_pick ≤ s.draft_order.length → s2.status = s.status)) ∧
    (s.status = "completed" → makeDraftPick catalog s teamId playerId = .error .invalidState) ∧
    ((runPicks demoCatalog demoDraft [(1, 10), (2, 20)]).status = "completed" ∧
      makeDraftPick demoCatalog (runPicks demoCatalog demoDraft [(1, 10), (2, 20)]) 1 99 =
        .error .invalidState) := by
  refine ⟨?_, ?_, by rfl, by rfl⟩
  · intro s2 pr h
    obtain ⟨-, -, -, -, player, -, hs2, -⟩ := makeDraftPick_ok_elim h
    subst hs2
    constructor
    · intro hgt
      have hcond : s.draft_order.length < s.current_pick + 1 := by
        simpa [applyPick] using hgt
      simp [applyPick, hcond]
    · intro hle
      have hcond : ¬ s.draft_order.length < s.current_pick + 1 := by
        simp only [applyPick] at hle
        omega
      simp [applyPick, hcond]
  · intro hstat
    simp [makeDraftPick, hstat]

/-- Witness for C5: a pick against a completed draft fails with
InvalidState. -/
theorem draft_completion_witness :
    makeDraftPick demoCatalog { demoDraft with status := "completed" } 1 10 =
      .error .invalidState :=
  (draft_completion demoCatalog { demoDraft with status := "completed" } 1 10).2.1 rfl

/-- Counterexample to C6 as stated: `startDraft` on a draft whose status
is already completed does not fail — the source never inspects the
current status — it succeeds and flips the status back to
in-progress. -/
theorem startDraft_completed_succeeds :
    startDraft (some { demoDraft with status := "completed" }) =
      .ok { demoDraft with status := "in_progress" } := by rfl

/-- Claim C6 amended: `startDraft` fails only when no draft record exists
for the league; for any existing draft, whatever its current status
(completed included), it succeeds and sets the status to in-progress. -/
theorem startDraft_spec (s : DraftState) :
    startDraft (some s) = .ok { s with status := "in_progress" } ∧
    startDraft none = .error .draftNotFound :=
  ⟨rfl, rfl⟩

/-- Counterexample to C7 as stated: with a draft already stored for the
league, plain `initializeDraft` — the source has no re-initialization
flag at all — does not fail: the upsert succeeds and stores a fresh
draft state in place of the existing one. -/
theorem initializeDraft_existing_succeeds :
    initializeDraft (some demoDraft) 1 [⟨1, "Alpha", some 7⟩, ⟨2, "Beta", none⟩]
        demoCatalog [] 1 "snake" 500 =
      .ok (some (freshDraft 1 [⟨1, "Alpha", some 7⟩, ⟨2, "Beta", none⟩]
        demoCatalog [] 1 "snake" 500)) := by rfl

/-- Claim C7 amended: `initializeDraft` never fails because a draft
already exists: whenever the league has at least one team it succeeds for
every prior store content, always writing the same fresh state built
only from the league data — the `ON CONFLICT DO UPDATE` upsert silently
discards any prior draft. -/
theorem initializeDraft_spec (existing : Option DraftState) (leagueId : Nat)
    (teams : List Team) (catalog : List Player) (rostered : List Nat) (rounds : Nat)
    (draftType : String) (totalPicks : Nat) (hne : teams ≠ []) :
    initializeDraft existing leagueId teams catalog rostered rounds draftType totalPicks =
      .ok (some (freshDraft leagueId teams catalog rostered rounds draftType totalPicks)) := by
  simp [initializeDraft, hne]

/-- Witness for C7 amended, at a one-team league with empty prior
store. -/
theorem initializeDraft_spec_witness :
    initializeDraft none 1 [⟨1, "Alpha", some 7⟩] demoCatalog [] 1 "snake" 500 =
      .ok (some (freshDraft 1 [⟨1, "Alpha", some 7⟩] demoCatalog [] 1 "snake" 500)) :=
  initializeDraft_spec none 1 [⟨1, "Alpha", some 7⟩] demoCatalog [] 1 "snake" 500 (by decide)

/-- Equally rated fixture players whose catalog (and table) order puts
the higher identifier first, one order the rating-descending query may
return. -/
def playerTie7 : Player :=
  { id := 7, name := "Tie7", position := "C", overall_rating := 90, potential := 90 }

def playerTie2 : Player :=
  { id := 2, name := "Tie2", position := "C", overall_rating := 90, potential := 90 }

/-- Counterexample to C8 as stated: with the two equally rated available
players 7 and 2 listed in that order by the rating-descending candidate
query, an erroring ranking call falls back to `availablePlayers[0]`,
which is player 7 — the source never breaks rating ties by lowest
identifier (the tied player 2 has the lower one). -/
theorem selectBestPlayer_tie_counterexample :
    topAvailable [playerTie7, playerTie2] [7, 2] = [playerTie7, playerTie2] ∧
    selectBestPlayer (topAvailable [playerTie7, playerTie2] [7, 2]) .err = some playerTie7 ∧
    playerTie7.overall_rating = playerTie2.overall_rating ∧
    playerTie2.id < playerTie7.id := by
  refine ⟨by decide, by rfl, by rfl, by decide⟩

/-- Claim C8 amended: when the ranking call errors, returns an
unparseable result, or names no supplied candidate, `selectBestPlayer`
still returns a pick — the first element of the supplied
rating-descending candidate list, a highest-rated candidate with rating
ties resolved by list order rather than by lowest identifier — and in
every case the selection is drawn from the supplied candidate set. -/
theorem selectBestPlayer_fallback_spec (candidates : List Player) (ai : AIResult)
    (hne : candidates ≠ []) :
    (∃ p, selectBestPlayer candidates ai = some p ∧ p ∈ candidates) ∧
    (selectBestPlayer candidates .err = candidates.head? ∧
      selectBestPlayer candidates .unparseable = candidates.head?) ∧
    (∀ pid, candidates.find? (fun p => p.id == pid) = none →
        selectBestPlayer candidates (.parsed pid) = candidates.head?) ∧
    (candidates.Sorted ratedAbove →
        ∀ p, selectBestPlayer candidates .err = some p →
          ∀ q ∈ candidates, q.overall_rating ≤ p.overall_rating) := by
  obtain ⟨c, cs, rfl⟩ := List.exists_cons_of_ne_nil hne
  refine ⟨?_, ⟨rfl, rfl⟩, ?_, ?_⟩
  · cases ai with
    | err => exact ⟨c, rfl, List.mem_cons_self c cs⟩
    | unparseable => exact ⟨c, rfl, List.mem_cons_self c cs⟩
    | parsed pid =>
        cases hf : (c :: cs).find? (fun p => p.id == pid) with
        | none => exact ⟨c, by simp [selectBestPlayer, hf], List.mem_cons_self c cs⟩
        | some p =>
            exact ⟨p, by simp [selectBestPlayer, hf], List.mem_of_find?_eq_some hf⟩
  · intro pid hf
    simp [selectBestPlayer, hf]
  · intro hsorted p hp q hq
    have hpc : p = c := by
      simp only [selectBestPlayer, List.head?_cons] at hp
      exact (Option.some.inj hp).symm
    subst hpc
    rcases List.mem_cons.mp hq with h | h
    · exact h ▸ le_refl _
    · exact (List.pairwise_cons.mp hsorted).1 q h

/-- Witness for C8 amended: with the demo candidates an erroring ranking
call still returns the top-rated player X. -/
theorem selectBestPlayer_fallback_spec_witness :
    selectBestPlayer [playerX, playerY] .err = some playerX := by
  have h := (selectBestPlayer_fallback_spec [playerX, playerY] .err (by decide)).2.1.1
  exact h.trans rfl

theorem sorted_take_count_lt {l : List Player} (hs : l.Sorted ratedAbove) {p : Player}
    (hp : p ∈ l.take 20) :
    l.countP (fun q => decide (p.overall_rating < q.overall_rating)) < 20 := by
  obtain ⟨i, hi, hget⟩ := List.getElem_of_mem hp
  have hlen : (l.take 20).length = min 20 l.length := List.length_take 20 l
  have hi20 : i < 20 := by omega
  have hil : i < l.length := by omega
  have hgetl : l[i] = p := by
    rw [← hget, List.getElem_take]
  have hcount : l.countP (fun q => decide (p.overall_rating < q.overall_rating)) =
      (l.take i).countP (fun q => decide (p.overall_rating < q.overall_rating)) +
        (l.drop i).countP (fun q => decide (p.overall_rating < q.overall_rating)) := by
    conv_lhs => rw [← List.take_append_drop i l]
    rw [List.countP_append]
  have h1 : (l.take i).countP (fun q => decide (p.overall_rating < q.overall_rating)) ≤ i := by
    refine le_trans (List.countP_le_length _) ?_
    rw [List.length_take]
    omega
  have hdropeq : l.drop i = p :: l.drop (i + 1) := by
    rw [List.drop_eq_getElem_cons hil, hgetl]
  have hpair : (l.drop i).Pairwise ratedAbove :=
    List.Pairwise.sublist (List.drop_sublist i l) hs
  rw [hdropeq] at hpair
  have hrest : ∀ q ∈ l.drop (i + 1), q.overall_rating ≤ p.overall_rating :=
    (List.pairwise_cons.mp hpair).1
  have h2 : (l.drop i).countP (fun q => decide (p.overall_rating < q.overall_rating)) = 0 := by
    rw [hdropeq, List.countP_cons]
    have hp0 : (decide (p.overall_rating < p.overall_rating)) = false := by simp
    rw [List.countP_eq_zero.mpr]
    · simp [hp0]
    · intro q hq
      have := hrest q hq
      simp only [decide_eq_true_eq]
      omega
  omega

/-- Claim C10: every computer pick chooses among the 20 highest-rated
available players: the candidate list handed to the selection policy is
the rating-descending available list truncated to 20 entries, whatever
the ranking call returns the selected player is one of those candidates
and fewer than 20 available players are rated strictly above it, and the
erroring-call fallback is exactly the first candidate. -/
theorem autopick_top20 (catalog : List Player) (s : DraftState) :
    ((topAvailable catalog s.available_players).length ≤ 20) ∧
    (∀ ai p, selectBestPlayer (topAvailable catalog s.available_players) ai = some p →
        p ∈ topAvailable catalog s.available_players ∧
        ((catalog.filter (fun q => s.available_players.contains q.id)).filter
            (fun q => decide (p.overall_rating < q.overall_rating))).length < 20) ∧
    (selectBestPlayer (topAvailable catalog s.available_players) .err =
      (topAvailable catalog s.available_players).head?) := by
  refine ⟨?_, ?_, rfl⟩
  · rw [topAvailable, List.length_take]
    omega
  · intro ai p hp
    have hmem : p ∈ topAvailable catalog s.available_players := by
      cases ai with
      | err =>
          rw [selectBestPlayer] at hp
          exact List.mem_of_mem_head? hp
      | unparseable =>
          rw [selectBestPlayer] at hp
          exact List.mem_of_mem_head? hp
      | parsed pid =>
          rw [selectBestPlayer] at hp
          cases hf : (topAvailable catalog s.available_players).find?
              (fun q => q.id == pid) with
          | none =>
              rw [hf] at hp
              exact List.mem_of_mem_head? hp
          | some q =>
              rw [hf] at hp
              exact (Option.some.inj hp) ▸ List.mem_of_find?_eq_some hf
    refine ⟨hmem, ?_⟩
    have hsorted : (List.insertionSort ratedAbove
        (catalog.filter (fun q => s.available_players.contains q.id))).Sorted ratedAbove :=
      List.sorted_insertionSort ratedAbove _
    have hcnt := sorted_take_count_lt hsorted (by simpa [topAvailable] using hmem)
    have hperm := List.perm_insertionSort ratedAbove
      (catalog.filter (fun q => s.available_players.contains q.id))
    rw [← List.countP_eq_length_filter]
    rw [← hperm.countP_eq]
    exact hcnt

/-- Witness for C10: in the demo draft the erroring-call selection is
player X, a member of the top-20 candidate list. -/
theorem autopick_top20_witness :
    playerX ∈ topAvailable demoCatalog demoDraft.available_players := by
  have h := (autopick_top20 demoCatalog demoDraft).2.1 .err playerX (by rfl)
  exact h.1

theorem makeAIDraftPick_ok {catalog : List Player} {ai : AIResult} {s : DraftState}
    {teamId : Nat} {s2 : DraftState} {pr : PickRecord}
    (h : makeAIDraftPick catalog ai s teamId = .ok (s2, pr)) :
    ∃ player, selectBestPlayer (topAvailable catalog s.available_players) ai = some player ∧
      makeDraftPick catalog s teamId player.id = .ok (s2, pr) := by
  rw [makeAIDraftPick] at h
  split at h
  · exact absurd h (by simp)
  · next player hsel => exact ⟨player, hsel, h⟩

theorem makeDraftPick_ok_advances {catalog : List Player} {s : DraftState}
    {teamId playerId : Nat} {s2 : DraftState} {pr : PickRecord}
    (h : makeDraftPick catalog s teamId playerId = .ok (s2, pr)) :
    s2.current_pick = s.current_pick + 1 ∧ s2.draft_order = s.draft_order ∧
    1 ≤ s.current_pick ∧ s.current_pick ≤ s.draft_order.length := by
  obtain ⟨-, ⟨slot, hslot, -⟩, -, -, player, -, hs2, -⟩ := makeDraftPick_ok_elim h
  subst hs2
  rw [slotAt, arrayGet] at hslot
  split at hslot
  · next hcond =>
      obtain ⟨hpos, hlt⟩ := hcond
      refine ⟨by simp [applyPick], by simp [applyPick], by omega, by omega⟩
  · cases hslot

/-- One iteration of the source's `processAIDrafts` body: with an
in-progress draft whose current slot belongs to a computer-controlled
team, apply one chained autopick through `makeAIDraftPick` and hence
through the full `makeDraftPick` path; in every other case — draft not in
progress, out-of-range slot, unknown team, human team, or a failing
chained pick (caught and logged by the source) — the chain stops with the
state unchanged. -/
def aiTurnStep (catalog : List Player) (ais : Nat → AIResult) (s : DraftState) :
    Option DraftState :=
  if s.status = "in_progress" then
    match slotAt s with
    | none => none
    | some slot =>
      match s.teams.find? (fun t => t.id == slot.team_id) with
      | none => none
      | some team =>
        if team.is_ai then
          match makeAIDraftPick catalog (ais s.current_pick) s team.id with
          | .error _ => none
          | .ok (s2, _) => some s2
        else none
  else none

theorem aiTurnStep_advances {catalog : List Player} {ais : Nat → AIResult}
    {s s2 : DraftState} (h : aiTurnStep catalog ais s = some s2) :
    s2.current_pick = s.current_pick + 1 ∧ s2.draft_order = s.draft_order ∧
    1 ≤ s.current_pick ∧ s.current_pick ≤ s.draft_order.length := by
  rw [aiTurnStep] at h
  split at h
  · split at h
    · cases h
    · split at h
      · cases h
      · split at h
        · split at h
          · cases h
          · next s3 pr hpick =>
              obtain ⟨player, -, hp⟩ := makeAIDraftPick_ok hpick
              exact (Option.some.inj h) ▸ makeDraftPick_ok_advances hp
        · cases h
  · cases h

theorem aiTurnStep_some_elim {catalog : List Player} {ais : Nat → AIResult}
    {s s2 : DraftState} (h : aiTurnStep catalog ais s = some s2) :
    s.status = "in_progress" ∧
    ∃ slot team player pr, slotAt s = some slot ∧
      s.teams.find? (fun t => t.id == slot.team_id) = some team ∧
      team.is_ai = true ∧
      selectBestPlayer (topAvailable catalog s.available_players) (ais s.current_pick) =
        some player ∧
      makeDraftPick catalog s team.id player.id = .ok (s2, pr) := by
  rw [aiTurnStep] at h
  split at h
  · next hstat =>
      split at h
      · cases h
      · next slot hslot =>
          split at h
          · cases h
          · next team hfind =>
              split at h
              · next hai =>
                  split at h
                  · cases h
                  · next s3 pr hpick =>
                      obtain ⟨player, hsel, hp⟩ := makeAIDraftPick_ok hpick
                      exact ⟨hstat, slot, team, player, pr, hslot, hfind, hai,
                        hsel, (Option.some.inj h) ▸ hp⟩
              · cases h
  · cases h

/-- The source's chained autopick loop: `processAIDrafts` re-invokes
itself after every successful computer pick until the draft is no longer
in progress, the slot team is human or unknown, or a chained pick throws
(the source catches and stops).  The returned number counts the picks
applied by the chain.  Termination is by the strictly increasing pick
pointer, bounded by the order length. -/
def processAIDrafts (catalog : List Player) (ais : Nat → AIResult)
    (store : Option DraftState) : Option DraftState × Nat :=
  match store with
  | none => (none, 0)
  | some s =>
    match hstep : aiTurnStep catalog ais s with
    | none => (some s, 0)
    | some s2 =>
        let rest := processAIDrafts catalog ais (some s2)
        (rest.1, rest.2 + 1)
termination_by
  match store with
  | none => 0
  | some s => s.draft_order.length + 1 - s.current_pick
decreasing_by
  simp_wf
  obtain ⟨h1, h2, h3, h4⟩ := aiTurnStep_advances hstep
  have h5 : s2.draft_order.length = s.draft_order.length := by rw [h2]
  omega

theorem processAIDrafts_none (catalog : List Player) (ais : Nat → AIResult) :
    processAIDrafts catalog ais none = (none, 0) := by
  rw [processAIDrafts.eq_def]

theorem processAIDrafts_stop {catalog : List Player} {ais : Nat → AIResult} {s : DraftState}
    (h : aiTurnStep catalog ais s = none) :
    processAIDrafts catalog ais (some s) = (some s, 0) := by
  rw [processAIDrafts.eq_def]
  dsimp only
  split
  · rfl
  · next s2 hstep => exact absurd (h.symm.trans hstep) (by simp)

theorem processAIDrafts_chain {catalog : List Player} {ais : Nat → AIResult}
    {s s2 : DraftState} (h : aiTurnStep catalog ais s = some s2) :
    processAIDrafts catalog ais (some s) =
      ((processAIDrafts catalog ais (some s2)).1,
        (processAIDrafts catalog ais (some s2)).2 + 1) := by
  rw [processAIDrafts.eq_def]
  dsimp only
  split
  · next hstep => exact absurd (h.symm.trans hstep) (by simp)
  · next s3 hstep =>
      have heq : s2 = s3 := Option.some.inj (h.symm.trans hstep)
      subst heq
      rfl

theorem processAIDrafts_count_le (catalog : List Player) (ais : Nat → AIResult) :
    ∀ N s, s.draft_order.length + 1 - s.current_pick ≤ N →
      (processAIDrafts catalog ais (some s)).2 ≤
        s.draft_order.length + 1 - s.current_pick := by
  intro N
  induction N with
  | zero =>
      intro s hN
      cases hstep : aiTurnStep catalog ais s with
      | none => simp [processAIDrafts_stop hstep]
      | some s2 =>
          obtain ⟨h1, h2, h3, h4⟩ := aiTurnStep_advances hstep
          omega
  | succ N ih =>
      intro s hN
      cases hstep : aiTurnStep catalog ais s with
      | none => simp [processAIDrafts_stop hstep]
      | some s2 =>
          obtain ⟨h1, h2, h3, h4⟩ := aiTurnStep_advances hstep
          rw [processAIDrafts_chain hstep]
          have hrec := ih s2 (by rw [h1, h2]; omega)
          rw [h1, h2] at hrec
          show (processAIDrafts catalog ais (some s2)).2 + 1 ≤
            s.draft_order.length + 1 - s.current_pick
          omega

/-- Claim C9: the computer-turn chain applies autopicks only while the
draft is in progress and the current slot's team is computer controlled:
it returns immediately with zero picks applied on an absent draft, a
draft that is not in progress, or a human team's turn; every applied pick
is one full `makeDraftPick` validation-and-application on the chosen
candidate; and the number of chained picks never exceeds the remaining
order length, |order| - currentPick + 1 — so the chain terminates within
that bound even on corrupted data. -/
theorem processAIDrafts_spec (catalog : List Player) (ais : Nat → AIResult) (s : DraftState) :
    (processAIDrafts catalog ais none = (none, 0)) ∧
    (s.status ≠ "in_progress" → processAIDrafts catalog ais (some s) = (some s, 0)) ∧
    (∀ slot team, s.status = "in_progress" → slotAt s = some slot →
        s.teams.find? (fun t => t.id == slot.team_id) = some team → team.is_ai = false →
        processAIDrafts catalog ais (some s) = (some s, 0)) ∧
    ((processAIDrafts catalog ais (some s)).2 ≤ s.draft_order.length + 1 - s.current_pick) ∧
    ((processAIDrafts catalog ais (some s)).2 ≠ 0 →
        s.status = "in_progress" ∧
        ∃ slot team player s2 pr, slotAt s = some slot ∧
          s.teams.find? (fun t => t.id == slot.team_id) = some team ∧
          team.is_ai = true ∧
          selectBestPlayer (topAvailable catalog s.available_players) (ais s.current_pick) =
            some player ∧
          makeDraftPick catalog s team.id player.id = .ok (s2, pr) ∧
          processAIDrafts catalog ais (some s) =
            ((processAIDrafts catalog ais (some s2)).1,
              (processAIDrafts catalog ais (some s2)).2 + 1)) := by
  refine ⟨processAIDrafts_none catalog ais, ?_, ?_, ?_, ?_⟩
  · intro hstat
    exact processAIDrafts_stop (by simp [aiTurnStep, hstat])
  · intro slot team hstat hslot hfind hai
    exact processAIDrafts_stop (by simp [aiTurnStep, hstat, hslot, hfind, hai])
  · exact processAIDrafts_count_le catalog ais _ s (le_refl _)
  · intro hne
    cases hstep : aiTurnStep catalog ais s with
    | none => exact absurd (by rw [processAIDrafts_stop hstep]) hne
    | some s2 =>
        obtain ⟨hstat, slot, team, player, pr, hslot, hfind, hai, hsel, hpick⟩ :=
          aiTurnStep_some_elim hstep
        exact ⟨hstat, slot, team, player, s2, pr, hslot, hfind, hai, hsel, hpick,
          processAIDrafts_chain hstep⟩

/-- Witness for C9: in the demo draft the first slot belongs to the human
team Alpha, so the chain stops at once with zero picks applied. -/
theorem processAIDrafts_spec_witness :
    processAIDrafts demoCatalog (fun _ => AIResult.err) (some demoDraft) = (some demoDraft, 0) := by
  have h := (processAIDrafts_spec demoCatalog (fun _ => AIResult.err) demoDraft).2.2.1
  exact h ⟨1, 1, 1, "Alpha"⟩ teamA (by rfl) (by rfl) (by rfl) (by rfl)
